import Mathlib

set_option maxRecDepth 4000

/-!
Shallow embedding of the boundary-refinement engine of the DEPhT/Prophicient
repository (src/prophicient/__main__.py and src/prophicient/functions/prefilter.py),
together with theorems settling the frozen claims about it.

Conventions of the embedding:
* Python ints are `Int` (or `Nat` where the source guarantees non-negativity,
  e.g. lengths and window sizes); BLAST e-values and gene densities, floats in
  the source, are `ℚ`.
* Python's in-place stable ascending `list.sort(key=...)` is modelled by
  `List.insertionSort` with the relation `key a ≤ key b` (which is stable and
  ascending, like Timsort).
* Python dicts keyed by strings are association lists in insertion order.
* Code that raises is modelled with `Option`; control paths the source cannot
  reach (indexing an empty run) return a default and are noted in comments.
-/

namespace DEPhT

/-- A gene feature as read by the core: a half-open `[start, end)` interval on
a contig, a strand, a type tag and pass-through qualifiers (the free-form
key → value-list mapping the core copies but does not interpret). -/
structure GeneFeature where
  start : Int
  stop : Int
  strand : Int
  ftype : String
  qualifiers : List (String × List String)
deriving DecidableEq, Repr

/-- One tabular BLASTn hit record as consumed by `detect_att_sites`:
subject id, subject start/end, query start/end, e-value
(the source reads these out of the result dict with `int(...)` for the
coordinates; the e-value is used only additively for sorting). -/
structure BlastHit where
  sseqid : String
  sstart : Int
  send : Int
  qstart : Int
  qend : Int
  evalue : ℚ
deriving DecidableEq, Repr

/-- The location of one anchor feature returned by the k-mer anchor finder
(`kmer_data[0].location` / `kmer_data[1].location` in the source). -/
structure KmerFeature where
  start : Int
  stop : Int
deriving DecidableEq, Repr

/-- A contig record as the density scanner reads it: its length and its
ordered feature list (the nucleotide characters themselves are never
inspected by the scanner, so they are not modelled). -/
structure SeqRecordModel where
  length : Nat
  features : List GeneFeature
deriving DecidableEq, Repr

/-! ## Homology Reference Mapper (`get_reference_map_from_sequence`) -/

/-- The outcome of the external aligner call.  Modelled from the spec: the
`blastn.blast_references` collaborator is not under src/; per the spec it
"throws/signals a distinguishable no-significant-alignment outcome", which the
source catches as `blastn.SignificantAlignmentNotFound`. -/
inductive BlastOutcome where
  | noSignificantAlignment : BlastOutcome
  | alignments : List BlastHit → BlastOutcome
deriving DecidableEq, Repr

/-- One step of the dedup loop of `get_reference_map_from_sequence`: look the
subject id up in the map built so far; if it is already present, `continue`,
otherwise store this hit under its subject id (dict insertion order is
modelled by appending). -/
def store_hit (m : List (String × BlastHit)) (h : BlastHit) :
    List (String × BlastHit) :=
  match m.lookup h.sseqid with
  | some _ => m
  | none => m ++ [(h.sseqid, h)]

/-- The dedup loop of `get_reference_map_from_sequence` over the hit list the
aligner returned: keep the first hit seen per subject id. -/
def reference_map_of_results (blast_results : List BlastHit) :
    List (String × BlastHit) :=
  blast_results.foldl store_hit []

/-- `get_reference_map_from_sequence`, minus the FASTA scratch-file I/O: on
the no-significant-alignment signal the hit list is downgraded to `[]`, and
the surviving hits are deduplicated first-seen-wins per subject id. -/
def get_reference_map_from_sequence (outcome : BlastOutcome) :
    List (String × BlastHit) :=
  match outcome with
  | .noSignificantAlignment => reference_map_of_results []
  | .alignments hits => reference_map_of_results hits

theorem lookup_append_singleton (m : List (String × BlastHit)) (k id : String)
    (h : BlastHit) :
    (m ++ [(k, h)]).lookup id =
      match m.lookup id with
      | some v => some v
      | none => if id = k then some h else none := by
  induction m with
  | nil =>
    by_cases hk : id = k
    · simp [List.lookup, hk]
    · simp [List.lookup, beq_false_of_ne hk, hk]
  | cons p m ih =>
    by_cases hp : id = p.1
    · simp [List.lookup, hp]
    · simpa [List.lookup, beq_false_of_ne hp] using ih

theorem lookup_foldl_store (id : String) :
    ∀ (hits : List BlastHit) (m : List (String × BlastHit)),
      (hits.foldl store_hit m).lookup id =
        match m.lookup id with
        | some v => some v
        | none => hits.find? (fun h => h.sseqid == id)
  | [], m => by cases hm : m.lookup id <;> simp [hm]
  | h :: t, m => by
    rw [List.foldl_cons, lookup_foldl_store id t]
    unfold store_hit
    cases hm : m.lookup h.sseqid with
    | some v =>
      cases hid : m.lookup id with
      | some w => simp [hid]
      | none =>
        have hne : h.sseqid ≠ id := by
          intro he
          rw [he, hid] at hm
          exact Option.noConfusion hm
        simp [hid, List.find?, beq_false_of_ne hne]
    | none =>
      rw [lookup_append_singleton]
      cases hid : m.lookup id with
      | some w => simp [hid]
      | none =>
        by_cases hb : h.sseqid = id
        · simp [hid, List.find?, hb]
        · simp [hid, List.find?, beq_false_of_ne hb, Ne.symm hb]

theorem lookup_eq_none_of_not_mem_keys (m : List (String × BlastHit))
    (k : String) (hk : m.lookup k = none) : k ∉ m.map Prod.fst := by
  induction m with
  | nil => simp
  | cons p m ih =>
    by_cases hp : k = p.1
    · simp [List.lookup, hp] at hk
    · simp only [List.lookup, beq_false_of_ne hp] at hk
      simp only [List.map_cons, List.mem_cons]
      rintro (h | h)
      · exact hp h
      · exact ih hk h

theorem nodup_keys_foldl_store :
    ∀ (hits : List BlastHit) (m : List (String × BlastHit)),
      (m.map Prod.fst).Nodup → ((hits.foldl store_hit m).map Prod.fst).Nodup
  | [], m, hm => hm
  | h :: t, m, hm => by
    rw [List.foldl_cons]
    apply nodup_keys_foldl_store t
    unfold store_hit
    cases hlk : m.lookup h.sseqid with
    | some v => exact hm
    | none =>
      rw [List.map_append]
      refine List.Nodup.append hm (by simp) ?_
      intro x hx hx'
      simp only [List.map_cons, List.map_nil, List.mem_singleton] at hx'
      exact lookup_eq_none_of_not_mem_keys m h.sseqid hlk (hx' ▸ hx)

/-- C8: for any list of aligner hit records, the reference map has at most one
entry per subject id (its key list is duplicate-free), and for every subject
id the retained entry is exactly the first hit with that id in aligner output
order (`List.find?`); every later hit to the same subject id is discarded. -/
theorem reference_map_first_seen_wins (hits : List BlastHit) (id : String) :
    ((get_reference_map_from_sequence (.alignments hits)).map Prod.fst).Nodup ∧
      (get_reference_map_from_sequence (.alignments hits)).lookup id =
        hits.find? (fun h => h.sseqid == id) := by
  constructor
  · exact nodup_keys_foldl_store hits [] (by simp)
  · rw [get_reference_map_from_sequence, reference_map_of_results,
        lookup_foldl_store]
    simp [List.lookup]

/-- C9: when the external aligner signals the no-significant-alignment
outcome, `get_reference_map_from_sequence` returns the empty reference map;
absence of homology is an ordinary value, not an error. -/
theorem reference_map_empty_on_no_alignment :
    get_reference_map_from_sequence .noSignificantAlignment = [] := rfl

/-! ## Attachment Site Resolver (`detect_att_sites`) -/

/-- The sort key of `reference_data.sort(key=lambda x: x[0]["evalue"] + x[1]["evalue"])`. -/
def evalueSum (p : BlastHit × BlastHit) : ℚ := p.1.evalue + p.2.evalue

/-- The in-place stable ascending sort of the consensus list by additive
combined e-value. -/
def sortReferenceData (l : List (BlastHit × BlastHit)) :
    List (BlastHit × BlastHit) :=
  l.insertionSort (fun a b => evalueSum a ≤ evalueSum b)

/-- The consensus list of `detect_att_sites`: for each common reference id
(the enumeration `ids` of the set intersection of the two maps' key sets, in
whatever order the Python set yields it), the pair of retained left/right
hits.  Ids absent from either map contribute nothing (the source only
enumerates ids present in both maps). -/
def build_reference_data (lmap rmap : List (String × BlastHit))
    (ids : List String) : List (BlastHit × BlastHit) :=
  ids.filterMap (fun id =>
    match lmap.lookup id, rmap.lookup id with
    | some lh, some rh => some (lh, rh)
    | _, _ => none)

/-- A consensus pair resolves the boundary when the two flank alignments
overlap on the reference (`left_ref_pos > right_ref_pos`) by at least the
minimum anchor score. -/
def qualifies (k : Int) (p : BlastHit × BlastHit) : Prop :=
  p.2.sstart < p.1.send ∧ k ≤ p.1.send - p.2.sstart

instance (k : Int) (p : BlastHit × BlastHit) : Decidable (qualifies k p) :=
  inferInstanceAs (Decidable (And _ _))

/-- The scan of the sorted consensus list inside `detect_att_sites`: the
first pair whose reference overlap is at least `min_kmer_score` yields the
refined coordinates and stops the loop (`break`); pairs with too small an
overlap, or with no overlap at all, are passed over (`continue` / loop
fall-through). -/
def scanReferenceData (start stop extension k : Int) :
    List (BlastHit × BlastHit) → Option (Int × Int)
  | [] => none
  | p :: rest =>
    if p.2.sstart < p.1.send then
      if p.1.send - p.2.sstart < k then
        scanReferenceData start stop extension k rest
      else
        some (start + p.1.qend - (p.1.send - p.2.sstart),
              stop - (extension - p.2.qstart) + (p.1.send - p.2.sstart))
    else scanReferenceData start stop extension k rest

/-- The per-candidate body of `detect_att_sites`, from the point where the
consensus list has been built: sort it, scan it, and on failure fall back to
the k-mer anchor data.  `kmerData` is the triple returned by the
`find_attachment_site` collaborator (left anchor feature, right anchor
feature, match score), which is not under src/ and therefore enters as an
input; `start`/`stop` are the candidate's coarse coordinates. -/
def detect_att_sites_coords (start stop extension k : Int)
    (referenceData : List (BlastHit × BlastHit))
    (kmerData : KmerFeature × KmerFeature × Int) : Int × Int :=
  match scanReferenceData start stop extension k
      (sortReferenceData referenceData) with
  | some c => c
  | none =>
    if k ≤ kmerData.2.2 then
      (start + kmerData.1.start, (stop - extension) + kmerData.2.1.stop)
    else (start, stop)

theorem scan_eq_of_find (start stop extension k : Int) :
    ∀ (l : List (BlastHit × BlastHit)) (p : BlastHit × BlastHit),
      l.find? (fun q => decide (qualifies k q)) = some p →
      scanReferenceData start stop extension k l =
        some (start + p.1.qend - (p.1.send - p.2.sstart),
              stop - (extension - p.2.qstart) + (p.1.send - p.2.sstart))
  | [], p, h => by simp [List.find?] at h
  | x :: rest, p, h => by
    rw [List.find?] at h
    by_cases hq : qualifies k x
    · rw [decide_eq_true hq] at h
      obtain rfl : x = p := Option.some.injEq _ _ ▸ h
      rw [scanReferenceData, if_pos hq.1, if_neg (not_lt.mpr hq.2)]
    · rw [decide_eq_false hq] at h
      rw [scanReferenceData]
      by_cases hov : x.2.sstart < x.1.send
      · have hlt : x.1.send - x.2.sstart < k := by
          by_contra hge
          exact hq ⟨hov, not_lt.mp hge⟩
        rw [if_pos hov, if_pos hlt]
        exact scan_eq_of_find start stop extension k rest p h
      · rw [if_neg hov]
        exact scan_eq_of_find start stop extension k rest p h

theorem scan_eq_none_of_none_qualifies (start stop extension k : Int) :
    ∀ (l : List (BlastHit × BlastHit)), (∀ p ∈ l, ¬ qualifies k p) →
      scanReferenceData start stop extension k l = none
  | [], _ => rfl
  | x :: rest, h => by
    have hrest := scan_eq_none_of_none_qualifies start stop extension k rest
      (fun p hp => h p (List.mem_cons_of_mem x hp))
    rw [scanReferenceData]
    by_cases hov : x.2.sstart < x.1.send
    · have hlt : x.1.send - x.2.sstart < k := by
        by_contra hge
        exact h x (List.mem_cons_self x rest) ⟨hov, not_lt.mp hge⟩
      rw [if_pos hov, if_pos hlt]
      exact hrest
    · rw [if_neg hov]
      exact hrest

/-- C1: when the sorted consensus list is scanned in order, the first pair
whose flank alignments overlap on the reference by at least the minimum
anchor score `k` fixes the refined coordinates to exactly
`start + leftHit.qend - overlapLen` and
`stop - (extension - rightHit.qstart) + overlapLen`, and no further pair is
evaluated (the first qualifying pair, i.e. `List.find?` on the sorted list,
fully determines the result). -/
theorem detect_att_accepts_first_qualifying (start stop extension k : Int)
    (referenceData : List (BlastHit × BlastHit))
    (kmerData : KmerFeature × KmerFeature × Int) (p : BlastHit × BlastHit)
    (hfind : (sortReferenceData referenceData).find?
        (fun q => decide (qualifies k q)) = some p) :
    detect_att_sites_coords start stop extension k referenceData kmerData =
      (start + p.1.qend - (p.1.send - p.2.sstart),
       stop - (extension - p.2.qstart) + (p.1.send - p.2.sstart)) := by
  rw [detect_att_sites_coords,
      scan_eq_of_find start stop extension k _ p hfind]

theorem detect_att_accepts_first_qualifying_witness :
    detect_att_sites_coords 10000 30000 5000 5
      [({ sseqid := "R1", sstart := 2, send := 30, qstart := 0, qend := 80,
          evalue := 1 },
        { sseqid := "R1", sstart := 700, qstart := 90, send := 900, qend := 200,
          evalue := 1 }),
       ({ sseqid := "R2", sstart := 1, send := 500, qstart := 10, qend := 50,
          evalue := 2 },
        { sseqid := "R2", sstart := 480, qstart := 40, send := 800, qend := 300,
          evalue := 3 })]
      (⟨0, 0⟩, ⟨0, 0⟩, 0) =
      (10000 + 50 - (500 - 480), 30000 - (5000 - 40) + (500 - 480)) :=
  detect_att_accepts_first_qualifying 10000 30000 5000 5 _ _
    ({ sseqid := "R2", sstart := 1, send := 500, qstart := 10, qend := 50,
       evalue := 2 },
     { sseqid := "R2", sstart := 480, qstart := 40, send := 800, qend := 300,
       evalue := 3 }) (by with_unfolding_all decide)

/-- C5: when no consensus pair resolves (no pair in the consensus list has a
reference overlap of at least `k`) and the k-mer anchor search comes back
with a match score below `k`, the resolver keeps the original coarse
coordinates unchanged; all three expected-absence outcomes (empty consensus
included) end in this total, non-raising fallback. -/
theorem detect_att_falls_back_to_original (start stop extension k : Int)
    (referenceData : List (BlastHit × BlastHit))
    (kmerData : KmerFeature × KmerFeature × Int)
    (hno : ∀ p ∈ referenceData, ¬ qualifies k p) (hk : kmerData.2.2 < k) :
    detect_att_sites_coords start stop extension k referenceData kmerData =
      (start, stop) := by
  rw [detect_att_sites_coords, scan_eq_none_of_none_qualifies]
  · rw [if_neg (not_le.mpr hk)]
  · intro p hp
    exact hno p ((List.mem_insertionSort _).mp hp)

theorem detect_att_falls_back_to_original_witness :
    detect_att_sites_coords 10000 30000 5000 5
      [({ sseqid := "R1", sstart := 2, send := 30, qstart := 0, qend := 80,
          evalue := 1 },
        { sseqid := "R1", sstart := 700, qstart := 90, send := 900, qend := 200,
          evalue := 1 }),
       ({ sseqid := "R2", sstart := 1, send := 500, qstart := 10, qend := 50,
          evalue := 2 },
        { sseqid := "R2", sstart := 498, qstart := 40, send := 800, qend := 300,
          evalue := 3 })]
      (⟨0, 0⟩, ⟨0, 0⟩, 4) = (10000, 30000) :=
  detect_att_falls_back_to_original 10000 30000 5000 5 _ _
    (by decide) (by decide)

/-- C3: the consensus list built over the common reference ids, once passed
through the resolver's sort, is ascending in the additive combined e-value
`evalueSum`; it is a permutation of the unsorted consensus list, and its head
(the first pair scanned) has an `evalueSum` no larger than that of any pair
of the consensus list. -/
theorem reference_data_sorted_by_evalue_sum
    (lmap rmap : List (String × BlastHit)) (ids : List String)
    (p q : BlastHit × BlastHit)
    (hhead : (sortReferenceData (build_reference_data lmap rmap ids)).head? =
      some p)
    (hq : q ∈ build_reference_data lmap rmap ids) :
    (sortReferenceData (build_reference_data lmap rmap ids)).Sorted
        (fun a b => evalueSum a ≤ evalueSum b) ∧
      List.Perm (sortReferenceData (build_reference_data lmap rmap ids))
        (build_reference_data lmap rmap ids) ∧
      evalueSum p ≤ evalueSum q := by
  haveI : IsTotal (BlastHit × BlastHit) (fun a b => evalueSum a ≤ evalueSum b) :=
    ⟨fun a b => le_total _ _⟩
  haveI : IsTrans (BlastHit × BlastHit) (fun a b => evalueSum a ≤ evalueSum b) :=
    ⟨fun _ _ _ => le_trans⟩
  refine ⟨List.sorted_insertionSort _ _, List.perm_insertionSort _ _, ?_⟩
  have hsorted : (sortReferenceData (build_reference_data lmap rmap ids)).Sorted
      (fun a b => evalueSum a ≤ evalueSum b) := List.sorted_insertionSort _ _
  have hqmem : q ∈ sortReferenceData (build_reference_data lmap rmap ids) :=
    (List.mem_insertionSort _).mpr hq
  cases hS : sortReferenceData (build_reference_data lmap rmap ids) with
  | nil => rw [hS] at hhead; exact Option.noConfusion hhead
  | cons a t =>
    rw [hS] at hhead
    obtain rfl : a = p := Option.some.inj hhead
    rw [hS] at hsorted
    rw [hS] at hqmem
    rcases List.mem_cons.mp hqmem with rfl | hqt
    · exact le_refl _
    · exact List.rel_of_sorted_cons hsorted q hqt

theorem reference_data_sorted_by_evalue_sum_witness :
    (sortReferenceData (build_reference_data
        [("A", { sseqid := "A", sstart := 0, send := 100, qstart := 0,
                 qend := 50, evalue := 3 }),
         ("B", { sseqid := "B", sstart := 0, send := 200, qstart := 0,
                 qend := 60, evalue := 1 })]
        [("A", { sseqid := "A", sstart := 90, send := 300, qstart := 10,
                 qend := 70, evalue := 3 }),
         ("B", { sseqid := "B", sstart := 150, send := 400, qstart := 20,
                 qend := 80, evalue := 1 })]
        ["A", "B"])).Sorted (fun a b => evalueSum a ≤ evalueSum b) ∧
      List.Perm (sortReferenceData (build_reference_data
        [("A", { sseqid := "A", sstart := 0, send := 100, qstart := 0,
                 qend := 50, evalue := 3 }),
         ("B", { sseqid := "B", sstart := 0, send := 200, qstart := 0,
                 qend := 60, evalue := 1 })]
        [("A", { sseqid := "A", sstart := 90, send := 300, qstart := 10,
                 qend := 70, evalue := 3 }),
         ("B", { sseqid := "B", sstart := 150, send := 400, qstart := 20,
                 qend := 80, evalue := 1 })]
        ["A", "B"])) (build_reference_data
        [("A", { sseqid := "A", sstart := 0, send := 100, qstart := 0,
                 qend := 50, evalue := 3 }),
         ("B", { sseqid := "B", sstart := 0, send := 200, qstart := 0,
                 qend := 60, evalue := 1 })]
        [("A", { sseqid := "A", sstart := 90, send := 300, qstart := 10,
                 qend := 70, evalue := 3 }),
         ("B", { sseqid := "B", sstart := 150, send := 400, qstart := 20,
                 qend := 80, evalue := 1 })]
        ["A", "B"]) ∧
      evalueSum ({ sseqid := "B", sstart := 0, send := 200, qstart := 0,
                   qend := 60, evalue := 1 },
                 { sseqid := "B", sstart := 150, send := 400, qstart := 20,
                   qend := 80, evalue := 1 }) ≤
        evalueSum ({ sseqid := "A", sstart := 0, send := 100, qstart := 0,
                     qend := 50, evalue := 3 },
                   { sseqid := "A", sstart := 90, send := 300, qstart := 10,
                     qend := 70, evalue := 3 }) :=
  reference_data_sorted_by_evalue_sum _ _ ["A", "B"] _ _
    (by with_unfolding_all decide) (by with_unfolding_all decide)

theorem eq_of_perm_of_sorted_of_injkey {α : Type} (key : α → ℚ) :
    ∀ (l1 l2 : List α), List.Perm l1 l2 →
      (∀ p ∈ l1, ∀ q ∈ l1, key p = key q → p = q) →
      List.Sorted (fun a b => key a ≤ key b) l1 →
      List.Sorted (fun a b => key a ≤ key b) l2 → l1 = l2
  | [], _, hp, _, _, _ => hp.symm.eq_nil.symm
  | _ :: _, [], hp, _, _, _ => absurd hp.eq_nil (by simp)
  | x :: xs, y :: ys, hp, hinj, hs1, hs2 => by
    have hxmem : x ∈ y :: ys := hp.mem_iff.mp (List.mem_cons_self x xs)
    have hymem : y ∈ x :: xs := hp.mem_iff.mpr (List.mem_cons_self y ys)
    have hxy : x = y := by
      rcases List.mem_cons.mp hxmem with h | hxys
      · exact h
      rcases List.mem_cons.mp hymem with h | hyxs
      · exact h.symm
      have h1 : key x ≤ key y := List.rel_of_sorted_cons hs1 y hyxs
      have h2 : key y ≤ key x := List.rel_of_sorted_cons hs2 x hxys
      exact hinj x (List.mem_cons_self x xs) y (List.mem_cons_of_mem x hyxs)
        (le_antisymm h1 h2)
    subst hxy
    have htail : xs = ys :=
      eq_of_perm_of_sorted_of_injkey key xs ys hp.cons_inv
        (fun p hp' q hq' he => hinj p (List.mem_cons_of_mem x hp') q
          (List.mem_cons_of_mem x hq') he) hs1.of_cons hs2.of_cons
    rw [htail]

/-- C4 counterexample: the resolution is not independent of the enumeration
order of the common reference ids.  With two common references whose pairs
tie on combined e-value and both qualify with different coordinate formulas,
enumerating the set intersection as `["A", "B"]` versus `["B", "A"]` (both
orders a Python string set can produce under hash randomization) yields
different refined coordinates on otherwise identical inputs. -/
theorem detect_att_depends_on_id_enumeration_order :
    detect_att_sites_coords 0 5000 1000 5
        (build_reference_data
          [("A", { sseqid := "A", sstart := 0, send := 100, qstart := 0,
                   qend := 50, evalue := 1 }),
           ("B", { sseqid := "B", sstart := 0, send := 200, qstart := 0,
                   qend := 60, evalue := 1 })]
          [("A", { sseqid := "A", sstart := 90, send := 300, qstart := 10,
                   qend := 70, evalue := 1 }),
           ("B", { sseqid := "B", sstart := 150, send := 400, qstart := 20,
                   qend := 80, evalue := 1 })]
          ["A", "B"]) (⟨0, 0⟩, ⟨0, 0⟩, 0) ≠
      detect_att_sites_coords 0 5000 1000 5
        (build_reference_data
          [("A", { sseqid := "A", sstart := 0, send := 100, qstart := 0,
                   qend := 50, evalue := 1 }),
           ("B", { sseqid := "B", sstart := 0, send := 200, qstart := 0,
                   qend := 60, evalue := 1 })]
          [("A", { sseqid := "A", sstart := 90, send := 300, qstart := 10,
                   qend := 70, evalue := 1 }),
           ("B", { sseqid := "B", sstart := 150, send := 400, qstart := 20,
                   qend := 80, evalue := 1 })]
          ["B", "A"]) (⟨0, 0⟩, ⟨0, 0⟩, 0) := by
  with_unfolding_all decide

/-- C4 amended: attachment-site resolution is deterministic for a fixed
enumeration order of the common reference ids, and the enumeration order
cannot influence the result when no two consensus pairs tie on additive
combined e-value; only on such ties can the set-iteration (hash) order decide
which consensus pair is chosen. -/
theorem detect_att_order_independent_on_distinct_evalues
    (lmap rmap : List (String × BlastHit)) (ids1 ids2 : List String)
    (start stop extension k : Int)
    (kmerData : KmerFeature × KmerFeature × Int)
    (hperm : List.Perm ids1 ids2)
    (hinj : ∀ p ∈ build_reference_data lmap rmap ids1,
        ∀ q ∈ build_reference_data lmap rmap ids1,
          evalueSum p = evalueSum q → p = q) :
    detect_att_sites_coords start stop extension k
        (build_reference_data lmap rmap ids1) kmerData =
      detect_att_sites_coords start stop extension k
        (build_reference_data lmap rmap ids2) kmerData := by
  haveI : IsTotal (BlastHit × BlastHit) (fun a b => evalueSum a ≤ evalueSum b) :=
    ⟨fun a b => le_total _ _⟩
  haveI : IsTrans (BlastHit × BlastHit) (fun a b => evalueSum a ≤ evalueSum b) :=
    ⟨fun _ _ _ => le_trans⟩
  have hL : List.Perm (build_reference_data lmap rmap ids1)
      (build_reference_data lmap rmap ids2) := hperm.filterMap _
  have hS : List.Perm (sortReferenceData (build_reference_data lmap rmap ids1))
      (sortReferenceData (build_reference_data lmap rmap ids2)) :=
    ((List.perm_insertionSort _ _).trans hL).trans
      (List.perm_insertionSort _ _).symm
  have heq : sortReferenceData (build_reference_data lmap rmap ids1) =
      sortReferenceData (build_reference_data lmap rmap ids2) := by
    refine eq_of_perm_of_sorted_of_injkey evalueSum _ _ hS ?_
      (List.sorted_insertionSort _ _) (List.sorted_insertionSort _ _)
    intro p hp q hq he
    exact hinj p ((List.mem_insertionSort _).mp hp)
      q ((List.mem_insertionSort _).mp hq) he
  rw [detect_att_sites_coords, detect_att_sites_coords, heq]

theorem detect_att_order_independent_on_distinct_evalues_witness :
    detect_att_sites_coords 0 5000 1000 5
        (build_reference_data
          [("A", { sseqid := "A", sstart := 0, send := 100, qstart := 0,
                   qend := 50, evalue := 1 }),
           ("B", { sseqid := "B", sstart := 0, send := 200, qstart := 0,
                   qend := 60, evalue := 2 })]
          [("A", { sseqid := "A", sstart := 90, send := 300, qstart := 10,
                   qend := 70, evalue := 1 }),
           ("B", { sseqid := "B", sstart := 150, send := 400, qstart := 20,
                   qend := 80, evalue := 2 })]
          ["A", "B"]) (⟨0, 0⟩, ⟨0, 0⟩, 0) =
      detect_att_sites_coords 0 5000 1000 5
        (build_reference_data
          [("A", { sseqid := "A", sstart := 0, send := 100, qstart := 0,
                   qend := 50, evalue := 1 }),
           ("B", { sseqid := "B", sstart := 0, send := 200, qstart := 0,
                   qend := 60, evalue := 2 })]
          [("A", { sseqid := "A", sstart := 90, send := 300, qstart := 10,
                   qend := 70, evalue := 1 }),
           ("B", { sseqid := "B", sstart := 150, send := 400, qstart := 20,
                   qend := 80, evalue := 2 })]
          ["B", "A"]) (⟨0, 0⟩, ⟨0, 0⟩, 0) :=
  detect_att_order_independent_on_distinct_evalues _ _ ["A", "B"] ["B", "A"]
    0 5000 1000 5 _ (by decide) (by with_unfolding_all decide)

/-! ## Region Extractor (`prefilter_genome`) -/

/-- The relocation `prefilter_genome` applies to a feature kept inside a
region: both coordinates shifted down by the region's start, with strand,
type and qualifiers copied into the new `SeqFeature`. -/
def translate_feature (f : GeneFeature) (region_start : Int) : GeneFeature :=
  { start := f.start - region_start, stop := f.stop - region_start,
    strand := f.strand, ftype := f.ftype, qualifiers := f.qualifiers }

/-- The per-region feature relocation loop of `prefilter_genome`: `continue`
past any feature that starts before the region's start or ends after the
region's end, relocate the kept ones into the local frame, then sort the
collected list in place by local start. -/
def region_features (features : List GeneFeature)
    (region_start region_stop : Int) : List GeneFeature :=
  List.insertionSort (fun a b => a.start ≤ b.start)
    (features.filterMap (fun f =>
      if f.start < region_start ∨ region_stop < f.stop then none
      else some (translate_feature f region_start)))

/-- C7: under the gene-feature interval invariant (`start < end`), every
feature the region extractor outputs is the translation by the region start
of an input feature lying entirely inside the region, its local coordinates
satisfy `0 ≤ localStart < localEnd ≤ regionLength`, and the output list is
sorted by local start ascending; boundary-crossing features never appear
(the output is drawn from the fully-contained features only). -/
theorem region_extractor_features_local (features : List GeneFeature)
    (region_start region_stop : Int) (g : GeneFeature)
    (hiv : ∀ f ∈ features, f.start < f.stop)
    (hg : g ∈ region_features features region_start region_stop) :
    (0 ≤ g.start ∧ g.start < g.stop ∧ g.stop ≤ region_stop - region_start ∧
      g ∈ features.filterMap (fun f =>
        if region_start ≤ f.start ∧ f.stop ≤ region_stop then
          some (translate_feature f region_start)
        else none)) ∧
      (region_features features region_start region_stop).Sorted
        (fun a b => a.start ≤ b.start) := by
  haveI : IsTotal GeneFeature (fun a b => a.start ≤ b.start) :=
    ⟨fun a b => le_total _ _⟩
  haveI : IsTrans GeneFeature (fun a b => a.start ≤ b.start) :=
    ⟨fun _ _ _ => le_trans⟩
  refine ⟨?_, List.sorted_insertionSort _ _⟩
  have hg' : g ∈ features.filterMap (fun f =>
      if f.start < region_start ∨ region_stop < f.stop then none
      else some (translate_feature f region_start)) :=
    (List.mem_insertionSort _).mp hg
  obtain ⟨f, hf, hfg⟩ := List.mem_filterMap.mp hg'
  by_cases hcond : f.start < region_start ∨ region_stop < f.stop
  · rw [if_pos hcond] at hfg
    exact Option.noConfusion hfg
  · rw [if_neg hcond] at hfg
    push_neg at hcond
    obtain rfl : translate_feature f region_start = g := Option.some.inj hfg
    refine ⟨?_, ?_, ?_, ?_⟩
    · exact sub_nonneg.mpr hcond.1
    · exact sub_lt_sub_right (hiv f hf) region_start
    · exact sub_le_sub_right hcond.2 region_start
    · exact List.mem_filterMap.mpr ⟨f, hf, by rw [if_pos ⟨hcond.1, hcond.2⟩]⟩

theorem region_extractor_features_local_witness :
    (0 ≤ (10 : Int) ∧ (10 : Int) < 40 ∧ (40 : Int) ≤ 100 - 10 ∧
      ({ start := 10, stop := 40, strand := 1, ftype := "CDS",
         qualifiers := [] } : GeneFeature) ∈
        List.filterMap (fun f =>
          if (10 : Int) ≤ f.start ∧ f.stop ≤ (100 : Int) then
            some (translate_feature f 10)
          else none)
          [{ start := 20, stop := 50, strand := 1, ftype := "CDS",
             qualifiers := [] },
           { start := 5, stop := 30, strand := -1, ftype := "CDS",
             qualifiers := [] }]) ∧
      (region_features
          [{ start := 20, stop := 50, strand := 1, ftype := "CDS",
             qualifiers := [] },
           { start := 5, stop := 30, strand := -1, ftype := "CDS",
             qualifiers := [] }] 10 100).Sorted
        (fun a b => a.start ≤ b.start) := by
  have h := region_extractor_features_local
    [{ start := 20, stop := 50, strand := 1, ftype := "CDS", qualifiers := [] },
     { start := 5, stop := 30, strand := -1, ftype := "CDS", qualifiers := [] }]
    10 100
    { start := 10, stop := 40, strand := 1, ftype := "CDS", qualifiers := [] }
    (by decide) (by decide)
  exact ⟨⟨h.1.1, h.1.2.1, h.1.2.2.1, h.1.2.2.2⟩, h.2⟩

/-! ## Density Scanner (`get_gene_dense_regions`) -/

/-- Modelled from the spec: the boundary count underlying
`gene_density.count_genes_per_interval` (not under src/) — the number of
gene-feature boundaries (starts and ends) falling inside the half-open
window `[lo, hi)`. -/
def count_boundaries (features : List GeneFeature) (lo hi : Int) : Nat :=
  (features.map (fun f =>
    (if lo ≤ f.start ∧ f.start < hi then 1 else 0) +
      (if lo ≤ f.stop ∧ f.stop < hi then 1 else 0))).sum

/-- Modelled from the spec: the density map produced by
`gene_density.count_genes_per_interval` composed with
`gene_density.calculate_density_map` (neither under src/) — one sample per
`bin_width`-sized step across the contig length, each sample pairing its
coordinate with the count of feature boundaries in the `window_size` window
centred there, normalised by the window size; keys are unique and ascend in
coordinate order. -/
def calculate_density_map (len : Nat) (features : List GeneFeature)
    (window_size bin_width : Nat) : List (Int × ℚ) :=
  (List.range (len / bin_width + 1)).map (fun i =>
    (((i * bin_width : Nat) : Int),
      (count_boundaries features
          (((i * bin_width : Nat) : Int) - ((window_size / 2 : Nat) : Int))
          (((i * bin_width : Nat) : Int) + ((window_size / 2 : Nat) : Int)) : ℚ) /
        (window_size : ℚ)))

/-- numpy's `average` of a list of values. -/
def npAverage (l : List ℚ) : ℚ := l.sum / l.length

/-- The population variance that numpy's `std` takes the square root of. -/
def npVariance (l : List ℚ) : ℚ :=
  npAverage (l.map (fun x => (x - npAverage l) ^ 2))

/-- `s` is the value numpy's `std` returns on `l`: the non-negative square
root of the population variance.  (That square root is not in general
rational, so the scanner below receives the standard deviation as an
argument constrained by this predicate in the theorems.) -/
def IsStdOf (l : List ℚ) (s : ℚ) : Prop := 0 ≤ s ∧ s ^ 2 = npVariance l

instance (l : List ℚ) (s : ℚ) : Decidable (IsStdOf l s) :=
  inferInstanceAs (Decidable (And _ _))

/-- Modelled from the spec: `gene_density.compile_region_contigs` (not under
src/) — "a Region Contig is any maximal run of consecutive bins with density
≥ eps": split the density map into the maximal runs of consecutive samples
whose density is at least `eps`. -/
def compile_region_contigs (eps : ℚ) : List (Int × ℚ) → List (List (Int × ℚ))
  | [] => []
  | x :: xs =>
    if eps ≤ x.2 then
      match xs with
      | [] => [[x]]
      | y :: _ =>
        if eps ≤ y.2 then
          match compile_region_contigs eps xs with
          | [] => [[x]]
          | r :: rs => (x :: r) :: rs
        else [x] :: compile_region_contigs eps xs
    else compile_region_contigs eps xs

/-- Python's `max(l, key=key)`: the first element attaining the maximal key
(`none` on an empty list, where Python would raise `ValueError`). -/
def pyMax {α : Type} (key : α → ℚ) : List α → Option α
  | [] => none
  | x :: xs =>
    some (xs.foldl (fun acc y => if key acc < key y then y else acc) x)

/-- The density samples of the contig, in bin order (`rho_data` in the
source: the values of the index → density map). -/
def rho_data (record : SeqRecordModel) (bin_width window_size : Nat) : List ℚ :=
  (calculate_density_map record.length record.features window_size
      bin_width).map (fun s => s.2)

/-- The promotion stage of `get_gene_dense_regions`: keep each maximal run
whose peak sample (`max(region_contig, key=lambda x: x[1])`) reaches the
ceiling `rho_avg + rho_std * C`, sorting each kept run in place by
coordinate.  `rho_std` is numpy's standard deviation of the density data,
received as an argument (see `IsStdOf`); `eps = rho_avg - rho_std * F` is the
run-inclusion threshold. -/
def alpha_region_contigs (record : SeqRecordModel)
    (bin_width window_size : Nat) (F C rho_std : ℚ) :
    List (List (Int × ℚ)) :=
  let m := calculate_density_map record.length record.features window_size
    bin_width
  let rho_avg := npAverage (rho_data record bin_width window_size)
  let eps := rho_avg - rho_std * F
  let ceiling := rho_avg + rho_std * C
  (compile_region_contigs eps m).filterMap (fun rc =>
    match pyMax (fun s => s.2) rc with
    | none => none
    | some peak =>
      if ceiling ≤ peak.2 then
        some (List.insertionSort (fun a b => a.1 ≤ b.1) rc)
      else none)

/-- `get_gene_dense_regions`: each promoted run is emitted as the coordinate
interval from its first sample coordinate minus half the window to its last
sample coordinate plus half the window (`contig[0][0] - window_size // 2`,
`contig[-1][0] + window_size // 2`; the runs are non-empty, where Python
indexing would raise, `headI`/`getLastI` return the default). -/
def get_gene_dense_regions (record : SeqRecordModel)
    (bin_width window_size : Nat) (F C rho_std : ℚ) : List (Int × Int) :=
  (alpha_region_contigs record bin_width window_size F C rho_std).map
    (fun rc =>
      (rc.headI.1 - ((window_size / 2 : Nat) : Int),
       rc.getLastI.1 + ((window_size / 2 : Nat) : Int)))

theorem foldl_pyMax_mem {α : Type} (key : α → ℚ) :
    ∀ (l : List α) (x : α),
      l.foldl (fun acc y => if key acc < key y then y else acc) x = x ∨
        l.foldl (fun acc y => if key acc < key y then y else acc) x ∈ l
  | [], _ => Or.inl rfl
  | y :: ys, x => by
    rw [List.foldl_cons]
    rcases foldl_pyMax_mem key ys (if key x < key y then y else x) with h | h
    · rw [h]
      by_cases hxy : key x < key y
      · rw [if_pos hxy]
        exact Or.inr (List.mem_cons_self y ys)
      · rw [if_neg hxy]
        exact Or.inl rfl
    · exact Or.inr (List.mem_cons_of_mem y h)

theorem foldl_pyMax_le {α : Type} (key : α → ℚ) :
    ∀ (l : List α) (x : α),
      key x ≤ key (l.foldl (fun acc y => if key acc < key y then y else acc) x) ∧
        ∀ q ∈ l,
          key q ≤ key (l.foldl (fun acc y => if key acc < key y then y else acc) x)
  | [], x => ⟨le_refl _, by simp⟩
  | y :: ys, x => by
    rw [List.foldl_cons]
    obtain ⟨h1, h2⟩ := foldl_pyMax_le key ys (if key x < key y then y else x)
    have hx : key x ≤ key (if key x < key y then y else x) := by
      by_cases hxy : key x < key y
      · rw [if_pos hxy]; exact le_of_lt hxy
      · rw [if_neg hxy]
    have hy : key y ≤ key (if key x < key y then y else x) := by
      by_cases hxy : key x < key y
      · rw [if_pos hxy]
      · rw [if_neg hxy]; exact not_lt.mp hxy
    refine ⟨le_trans hx h1, ?_⟩
    intro q hq
    rcases List.mem_cons.mp hq with rfl | hq'
    · exact le_trans hy h1
    · exact h2 q hq'

theorem pyMax_spec {α : Type} (key : α → ℚ) (l : List α) (p : α)
    (h : pyMax key l = some p) : p ∈ l ∧ ∀ q ∈ l, key q ≤ key p := by
  cases l with
  | nil => exact Option.noConfusion h
  | cons x xs =>
    rw [pyMax] at h
    obtain rfl := Option.some.inj h
    constructor
    · rcases foldl_pyMax_mem key xs x with h' | h'
      · rw [h']; exact List.mem_cons_self x xs
      · exact List.mem_cons_of_mem x h'
    · intro q hq
      obtain ⟨h1, h2⟩ := foldl_pyMax_le key xs x
      rcases List.mem_cons.mp hq with rfl | hq'
      · exact h1
      · exact h2 q hq'

/-- C6: every run the scanner promotes has peak density at least the ceiling
`μ + C·σ`, where `μ` is the mean of all density samples and `σ` their
standard deviation (`IsStdOf`); a maximal run whose peak stays below the
ceiling is never emitted. -/
theorem promoted_region_peak_ge_ceiling (record : SeqRecordModel)
    (bin_width window_size : Nat) (F C rho_std : ℚ) (rc : List (Int × ℚ))
    (peak : Int × ℚ)
    (_hstd : IsStdOf (rho_data record bin_width window_size) rho_std)
    (hrc : rc ∈ alpha_region_contigs record bin_width window_size F C rho_std)
    (hpeak : pyMax (fun s => s.2) rc = some peak) :
    npAverage (rho_data record bin_width window_size) + rho_std * C ≤
      peak.2 := by
  simp only [alpha_region_contigs] at hrc
  obtain ⟨rc0, hrc0, hg⟩ := List.mem_filterMap.mp hrc
  cases hmax : pyMax (fun s => s.2) rc0 with
  | none => rw [hmax] at hg; exact Option.noConfusion hg
  | some p0 =>
    rw [hmax] at hg
    dsimp only at hg
    by_cases hceil : npAverage (rho_data record bin_width window_size) +
        rho_std * C ≤ p0.2
    · rw [if_pos hceil] at hg
      obtain rfl : List.insertionSort _ rc0 = rc := Option.some.inj hg
      have hp0rc : p0 ∈ List.insertionSort (fun a b => a.1 ≤ b.1) rc0 :=
        (List.mem_insertionSort _).mpr (pyMax_spec _ rc0 p0 hmax).1
      exact le_trans hceil ((pyMax_spec _ _ peak hpeak).2 p0 hp0rc)
    · rw [if_neg hceil] at hg
      exact Option.noConfusion hg

theorem promoted_region_peak_ge_ceiling_witness :
    npAverage (rho_data ⟨100, []⟩ 50 50) + 0 * 2 ≤ ((0 : Int), (0 : ℚ)).2 :=
  promoted_region_peak_ge_ceiling ⟨100, []⟩ 50 50 (-1/2) 2 0
    [((0 : Int), (0 : ℚ)), ((50 : Int), (0 : ℚ)), ((100 : Int), (0 : ℚ))]
    ((0 : Int), (0 : ℚ))
    (by with_unfolding_all decide) (by with_unfolding_all decide)
    (by with_unfolding_all decide)

/-- C10: every interval the scanner emits is exactly the corresponding
promoted run's first sample coordinate minus `window_size // 2` paired with
its last sample coordinate plus `window_size // 2`, with no clamping to the
contig bounds: whenever the first sample coordinate is below
`window_size // 2` the emitted start is negative (and nothing prevents the
emitted end from exceeding the contig length). -/
theorem emitted_region_coords_not_clamped (record : SeqRecordModel)
    (bin_width window_size : Nat) (F C rho_std : ℚ) (i : Nat)
    (rc : List (Int × ℚ)) (c : Int × Int)
    (hrc : (alpha_region_contigs record bin_width window_size F
        C rho_std)[i]? = some rc)
    (hc : (get_gene_dense_regions record bin_width window_size F
        C rho_std)[i]? = some c) :
    c = (rc.headI.1 - ((window_size / 2 : Nat) : Int),
        rc.getLastI.1 + ((window_size / 2 : Nat) : Int)) ∧
      (c.1 < 0 ∨ ((window_size / 2 : Nat) : Int) ≤ rc.headI.1) := by
  rw [get_gene_dense_regions, List.getElem?_map, hrc, Option.map_some'] at hc
  obtain rfl := (Option.some.inj hc).symm
  refine ⟨rfl, ?_⟩
  rcases lt_or_le rc.headI.1 ((window_size / 2 : Nat) : Int) with h | h
  · exact Or.inl (sub_neg.mpr h)
  · exact Or.inr h

theorem emitted_region_coords_not_clamped_witness :
    ((-25 : Int), (125 : Int)) =
      (([((0 : Int), (0 : ℚ)), ((50 : Int), (0 : ℚ)),
          ((100 : Int), (0 : ℚ))].headI.1 - ((50 / 2 : Nat) : Int)),
        ([((0 : Int), (0 : ℚ)), ((50 : Int), (0 : ℚ)),
          ((100 : Int), (0 : ℚ))].getLastI.1 + ((50 / 2 : Nat) : Int))) ∧
      ((-25 : Int) < 0 ∨ ((50 / 2 : Nat) : Int) ≤
        [((0 : Int), (0 : ℚ)), ((50 : Int), (0 : ℚ)),
          ((100 : Int), (0 : ℚ))].headI.1) :=
  emitted_region_coords_not_clamped ⟨100, []⟩ 50 50 (-1/2) 2 0 0
    [((0 : Int), (0 : ℚ)), ((50 : Int), (0 : ℚ)), ((100 : Int), (0 : ℚ))]
    ((-25 : Int), (125 : Int))
    (by with_unfolding_all decide) (by with_unfolding_all decide)

theorem npAverage_all_zero (l : List ℚ) (h : ∀ x ∈ l, x = 0) :
    npAverage l = 0 := by
  rw [npAverage, List.sum_eq_zero h, zero_div]

theorem compile_region_contigs_all_ge (eps : ℚ) :
    ∀ (m : List (Int × ℚ)), m ≠ [] → (∀ x ∈ m, eps ≤ x.2) →
      compile_region_contigs eps m = [m]
  | [], h, _ => absurd rfl h
  | x :: xs, _, hall => by
    cases xs with
    | nil =>
      simp [compile_region_contigs, hall x (List.mem_cons_self x [])]
    | cons y ys =>
      have hx : eps ≤ x.2 := hall x (List.mem_cons_self _ _)
      have hy : eps ≤ y.2 :=
        hall y (List.mem_cons_of_mem x (List.mem_cons_self _ _))
      have hrec := compile_region_contigs_all_ge eps (y :: ys) (by simp)
        (fun z hz => hall z (List.mem_cons_of_mem x hz))
      have hstep : compile_region_contigs eps (x :: y :: ys) =
          if eps ≤ x.2 then
            (if eps ≤ y.2 then
              match compile_region_contigs eps (y :: ys) with
              | [] => [[x]]
              | r :: rs => (x :: r) :: rs
            else [x] :: compile_region_contigs eps (y :: ys))
          else compile_region_contigs eps (y :: ys) := rfl
      rw [hstep, if_pos hx, if_pos hy, hrec]

/-- C2 counterexample: a contig of positive length with zero gene features
(length 100, the default bin width 50 and window size 50 scaled down, the
default thresholds F = -1/2 and C = 2, and standard deviation 0 — certified
by `IsStdOf`) makes every density sample 0, hence `eps = ceiling = μ = 0`;
every bin joins one maximal run, its zero peak meets the zero ceiling, and
the scanner emits that region instead of returning the empty list. -/
theorem zero_features_scanner_output_nonempty :
    IsStdOf (rho_data ⟨100, []⟩ 50 50) 0 ∧
      get_gene_dense_regions ⟨100, []⟩ 50 50 (-1/2) 2 0 ≠ [] := by
  with_unfolding_all decide

/-- C2 amended: for every contig with zero gene features the scanner is
total — no division by zero and no exception — but does not return the empty
list: all density samples are 0, so the mean and the standard deviation are
0, `eps = ceiling = 0`, the whole density map forms one maximal run whose
zero peak meets the zero ceiling, and exactly one region is emitted. -/
theorem zero_features_scanner_emits_one_region (record : SeqRecordModel)
    (bin_width window_size : Nat) (F C rho_std : ℚ)
    (hfeat : record.features = [])
    (hstd : IsStdOf (rho_data record bin_width window_size) rho_std) :
    (get_gene_dense_regions record bin_width window_size F
        C rho_std).length = 1 := by
  have hall : ∀ x ∈ calculate_density_map record.length record.features
      window_size bin_width, x.2 = 0 := by
    intro x hx
    rw [hfeat, calculate_density_map] at hx
    obtain ⟨i, _, rfl⟩ := List.mem_map.mp hx
    simp [count_boundaries]
  have hrho : ∀ x ∈ rho_data record bin_width window_size, x = 0 := by
    intro x hx
    obtain ⟨s, hs, rfl⟩ := List.mem_map.mp hx
    exact hall s hs
  have havg : npAverage (rho_data record bin_width window_size) = 0 :=
    npAverage_all_zero _ hrho
  have hvar : npVariance (rho_data record bin_width window_size) = 0 := by
    rw [npVariance]
    apply npAverage_all_zero
    intro x hx
    obtain ⟨y, hy, rfl⟩ := List.mem_map.mp hx
    rw [hrho y hy, havg]
    ring
  have hsz : rho_std = 0 := by
    have h2 := hstd.2
    rw [hvar] at h2
    exact (pow_eq_zero_iff (two_ne_zero)).mp h2
  have heps : npAverage (rho_data record bin_width window_size) -
      rho_std * F = 0 := by rw [havg, hsz]; ring
  have hceil : npAverage (rho_data record bin_width window_size) +
      rho_std * C = 0 := by rw [havg, hsz]; ring
  have hne : calculate_density_map record.length record.features window_size
      bin_width ≠ [] := by
    rw [calculate_density_map]
    simp
  rw [get_gene_dense_regions, List.length_map]
  simp only [alpha_region_contigs, heps, hceil]
  rw [compile_region_contigs_all_ge 0 _ hne
    (fun x hx => le_of_eq (hall x hx).symm)]
  obtain ⟨x, xs, hm⟩ : ∃ x xs, calculate_density_map record.length
      record.features window_size bin_width = x :: xs := by
    cases hcm : calculate_density_map record.length record.features
        window_size bin_width with
    | nil => exact absurd hcm hne
    | cons a l => exact ⟨a, l, rfl⟩
  rw [hm] at hall
  rw [hm]
  have hp := pyMax_spec (fun s : Int × ℚ => s.2) (x :: xs) _ rfl
  have hp2 : (xs.foldl
      (fun acc y => if acc.2 < y.2 then y else acc) x).2 = 0 :=
    hall _ hp.1
  simp [List.filterMap_cons, pyMax, hp2]

theorem zero_features_scanner_emits_one_region_witness :
    (⟨100, []⟩ : SeqRecordModel).features = ([] : List GeneFeature) ∧
      IsStdOf (rho_data ⟨100, []⟩ 50 50) 0 ∧
      (get_gene_dense_regions ⟨100, []⟩ 50 50 (-1/2) 2 0).length = 1 :=
  ⟨rfl, by with_unfolding_all decide,
    zero_features_scanner_emits_one_region ⟨100, []⟩ 50 50 (-1/2) 2 0 rfl
      (by with_unfolding_all decide)⟩

end DEPhT
